/-
  Verification of the TailwindOS-app balance & settlement model.

  The repository defines the data shapes (`Expense`, `ExpenseSplit`, `Balance`,
  `Debt`, `Settlement` in src/src/navigation/MainTabNavigator.tsx) and a mock
  auth store (src/src/store/authStore.ts), while the balance engine itself
  (docs/IMPLEMENTATION_SUMMARY.md lists `balance.ts: Calculate balances,
  simplify debts`) is absent from the source tree.  The engine functions
  (`computeBalances`, `simplify`, `applySettlement`) are therefore modelled
  from the specification; the UI mock data and the auth store are embedded
  directly from the source files.
-/
import Mathlib

namespace Tailwind

/-! ## Ledger model

Amounts are integer minor currency units (the spec's fixed-point
representation).  Member ids are strings, as in the source
(`userId: string`). -/

/-- Split of one expense: the amount one member owes toward it.
Source: `ExpenseSplit` in src/src/navigation/MainTabNavigator.tsx. -/
structure ExpenseSplit where
  userId : String
  amount : Int
  deriving DecidableEq, Repr

/-- An expense: a payer, a total amount and a list of splits.
Source: `Expense` in src/src/navigation/MainTabNavigator.tsx (fields not
used by balance computation — description, category, timestamps — are
omitted). -/
structure Expense where
  paidBy : String
  amount : Int
  splits : List ExpenseSplit
  deriving DecidableEq, Repr

/-- A recorded settlement payment from `fromUserId` to `toUserId`.
Source: `Settlement` in src/src/navigation/MainTabNavigator.tsx. -/
structure Settlement where
  fromUserId : String
  toUserId : String
  amount : Int
  deriving DecidableEq, Repr

/-- A derived pairwise debt directive: `fromUserId` owes `toUserId` `amount`.
Source: `Debt` in src/src/navigation/MainTabNavigator.tsx. -/
structure Debt where
  fromUserId : String
  toUserId : String
  amount : Int
  deriving DecidableEq, Repr

/-! ## Balance aggregator -/

/-- Modelled from the spec: `computeBalances` step for one expense —
"add `+total` to the payer's running balance and subtract each split's
amount from that split's member's balance" (the payer is not
special-cased). -/
def applyExpense (b : String → Int) (e : Expense) : String → Int :=
  e.splits.foldl
    (fun acc s => fun m => if s.userId = m then acc m - s.amount else acc m)
    (fun m => if e.paidBy = m then b m + e.amount else b m)

/-- Modelled from the spec: `computeBalances` step for one settlement —
"add `+amount` to the payer's balance and `-amount` to the payee's". -/
def applySettlementToBalances (b : String → Int) (s : Settlement) : String → Int :=
  fun m =>
    (if s.fromUserId = m then b m + s.amount else b m)
      - (if s.toUserId = m then s.amount else 0)

/-- Modelled from the spec: the Balance Aggregator `computeBalances`, missing
from the source tree (docs list it under `balance.ts`): fold all expenses and
then all settlements over the all-zero balance map. -/
def computeBalances (expenses : List Expense) (settlements : List Settlement) :
    String → Int :=
  settlements.foldl applySettlementToBalances
    (expenses.foldl applyExpense (fun _ => 0))

/-- Total of the split amounts of one expense attributed to member `m`. -/
def splitOwed (e : Expense) (m : String) : Int :=
  ((e.splits.filter (fun s => s.userId = m)).map ExpenseSplit.amount).sum

/-- Net effect of one expense on member `m`'s balance. -/
def expenseDelta (e : Expense) (m : String) : Int :=
  (if e.paidBy = m then e.amount else 0) - splitOwed e m

/-- Net effect of one settlement on member `m`'s balance. -/
def settlementDelta (s : Settlement) (m : String) : Int :=
  (if s.fromUserId = m then s.amount else 0) - (if s.toUserId = m then s.amount else 0)

/-- Sum of the split amounts of an expense. -/
def splitsTotal (e : Expense) : Int := (e.splits.map ExpenseSplit.amount).sum

lemma splitsFold_apply (l : List ExpenseSplit) (b0 : String → Int) (m : String) :
    l.foldl (fun acc s => fun x => if s.userId = x then acc x - s.amount else acc x) b0 m
      = b0 m - ((l.filter (fun s => s.userId = m)).map ExpenseSplit.amount).sum := by
  induction l generalizing b0 with
  | nil => simp
  | cons s rest ih =>
    simp only [List.foldl_cons, List.filter_cons]
    rw [ih]
    by_cases hs : s.userId = m
    · simp [hs]
      ring
    · simp [hs]

lemma applyExpense_apply (b : String → Int) (e : Expense) (m : String) :
    applyExpense b e m = b m + expenseDelta e m := by
  unfold applyExpense expenseDelta splitOwed
  rw [splitsFold_apply]
  by_cases hp : e.paidBy = m
  · simp [hp]
    ring
  · simp [hp]
    ring

lemma applySettlementToBalances_apply (b : String → Int) (s : Settlement)
    (m : String) :
    applySettlementToBalances b s m = b m + settlementDelta s m := by
  unfold applySettlementToBalances settlementDelta
  by_cases h1 : s.fromUserId = m
  all_goals by_cases h2 : s.toUserId = m
  all_goals simp [h1, h2]
  all_goals ring

lemma foldl_applyExpense_apply (b : String → Int) (es : List Expense)
    (m : String) :
    es.foldl applyExpense b m = b m + (es.map (fun e => expenseDelta e m)).sum := by
  induction es generalizing b with
  | nil => simp
  | cons e rest ih =>
    simp only [List.foldl_cons, List.map_cons, List.sum_cons]
    rw [ih, applyExpense_apply]
    ring

lemma foldl_applySettlement_apply (b : String → Int) (ss : List Settlement)
    (m : String) :
    ss.foldl applySettlementToBalances b m
      = b m + (ss.map (fun s => settlementDelta s m)).sum := by
  induction ss generalizing b with
  | nil => simp
  | cons s rest ih =>
    simp only [List.foldl_cons, List.map_cons, List.sum_cons]
    rw [ih, applySettlementToBalances_apply]
    ring

/-- Pointwise characterization of the balance aggregator: each member's
balance is the sum of per-expense and per-settlement deltas. -/
lemma computeBalances_apply (es : List Expense) (ss : List Settlement)
    (m : String) :
    computeBalances es ss m
      = (es.map (fun e => expenseDelta e m)).sum
          + (ss.map (fun s => settlementDelta s m)).sum := by
  unfold computeBalances
  rw [foldl_applySettlement_apply, foldl_applyExpense_apply]
  simp

/-! ## Zero-sum invariant machinery -/

lemma sum_map_addF {α : Type} (l : List α) (f g : α → Int) :
    (l.map (fun x => f x + g x)).sum = (l.map f).sum + (l.map g).sum := by
  induction l with
  | nil => simp
  | cons a rest ih => simp [ih]; ring

lemma sum_map_indicator_of_not_mem (l : List String) (a : String) (c : Int)
    (ha : a ∉ l) :
    (l.map (fun m => if a = m then c else 0)).sum = 0 := by
  induction l with
  | nil => simp
  | cons x rest ih =>
    have hax : a ≠ x := fun h => ha (h ▸ List.mem_cons_self x rest)
    have har : a ∉ rest := fun h => ha (List.mem_cons_of_mem x h)
    simp [hax, ih har]

lemma sum_map_indicator (l : List String) (a : String) (c : Int)
    (hnd : l.Nodup) (ha : a ∈ l) :
    (l.map (fun m => if a = m then c else 0)).sum = c := by
  induction l with
  | nil => exact absurd ha (List.not_mem_nil a)
  | cons x rest ih =>
    rcases List.mem_cons.mp ha with h | h
    · subst h
      have : a ∉ rest := (List.nodup_cons.mp hnd).1
      simp [sum_map_indicator_of_not_mem rest a c this]
    · have hax : a ≠ x := by
        intro hc
        exact (List.nodup_cons.mp hnd).1 (hc ▸ h)
      simp [hax, ih (List.nodup_cons.mp hnd).2 h]

lemma sum_map_negF {α : Type} (l : List α) (f : α → Int) :
    (l.map (fun x => -(f x))).sum = -((l.map f).sum) := by
  induction l with
  | nil => simp
  | cons a rest ih =>
    simp only [List.map_cons, List.sum_cons, ih]
    ring

lemma sum_map_splitList (ms : List String) (hnd : ms.Nodup) :
    ∀ l : List ExpenseSplit, (∀ s ∈ l, s.userId ∈ ms) →
      (ms.map (fun m =>
        ((l.filter (fun s => s.userId = m)).map ExpenseSplit.amount).sum)).sum
        = (l.map ExpenseSplit.amount).sum := by
  intro l
  induction l with
  | nil =>
    intro _
    simp
  | cons s rest ih =>
    intro hmem
    have hs : s.userId ∈ ms := hmem s (List.mem_cons_self s rest)
    have hrest : ∀ t ∈ rest, t.userId ∈ ms :=
      fun t ht => hmem t (List.mem_cons_of_mem s ht)
    have hstep : ∀ m : String,
        ((List.filter (fun t => t.userId = m) (s :: rest)).map
            ExpenseSplit.amount).sum
          = (if s.userId = m then s.amount else 0)
              + ((List.filter (fun t => t.userId = m) rest).map
                  ExpenseSplit.amount).sum := by
      intro m
      by_cases h : s.userId = m
      · simp [List.filter_cons, h]
      · simp [List.filter_cons, h]
    calc (ms.map fun m =>
            ((List.filter (fun t => t.userId = m) (s :: rest)).map
              ExpenseSplit.amount).sum).sum
        = (ms.map fun m =>
            (if s.userId = m then s.amount else 0)
              + ((List.filter (fun t => t.userId = m) rest).map
                  ExpenseSplit.amount).sum).sum := by
          congr 1
          exact List.map_congr_left (fun m _ => hstep m)
      _ = (ms.map fun m => if s.userId = m then s.amount else 0).sum
            + (ms.map fun m =>
                ((List.filter (fun t => t.userId = m) rest).map
                  ExpenseSplit.amount).sum).sum := by
          exact sum_map_addF ms _ _
      _ = s.amount + (rest.map ExpenseSplit.amount).sum := by
          rw [sum_map_indicator ms s.userId s.amount hnd hs, ih hrest]
      _ = ((s :: rest).map ExpenseSplit.amount).sum := by simp

lemma sum_map_expenseDelta (ms : List String) (e : Expense)
    (hnd : ms.Nodup) (hp : e.paidBy ∈ ms)
    (hmem : ∀ s ∈ e.splits, s.userId ∈ ms) :
    (ms.map (fun m => expenseDelta e m)).sum = e.amount - splitsTotal e := by
  unfold expenseDelta
  have h1 : (ms.map (fun m =>
      (if e.paidBy = m then e.amount else 0) - splitOwed e m)).sum
      = (ms.map fun m => if e.paidBy = m then e.amount else 0).sum
          + (ms.map fun m => -(splitOwed e m)).sum := by
    rw [← sum_map_addF]
    congr 1
  rw [h1, sum_map_indicator ms e.paidBy e.amount hnd hp, sum_map_negF]
  have h2 : (ms.map fun m => splitOwed e m).sum = splitsTotal e := by
    unfold splitOwed splitsTotal
    exact sum_map_splitList ms hnd e.splits hmem
  rw [h2]
  ring

lemma sum_map_settlementDelta (ms : List String) (s : Settlement)
    (hnd : ms.Nodup) (hf : s.fromUserId ∈ ms) (ht : s.toUserId ∈ ms) :
    (ms.map (fun m => settlementDelta s m)).sum = 0 := by
  unfold settlementDelta
  have h1 : (ms.map (fun m =>
      (if s.fromUserId = m then s.amount else 0)
        - (if s.toUserId = m then s.amount else 0))).sum
      = (ms.map fun m => if s.fromUserId = m then s.amount else 0).sum
          + (ms.map fun m => -(if s.toUserId = m then s.amount else 0)).sum := by
    rw [← sum_map_addF]
    congr 1
  rw [h1, sum_map_negF, sum_map_indicator ms s.fromUserId s.amount hnd hf,
    sum_map_indicator ms s.toUserId s.amount hnd ht]
  ring

lemma sum_map_expenseDeltas (ms : List String) (hnd : ms.Nodup) :
    ∀ es : List Expense,
      (∀ e ∈ es, e.paidBy ∈ ms ∧ ∀ s ∈ e.splits, s.userId ∈ ms) →
      (ms.map (fun m => (es.map (fun e => expenseDelta e m)).sum)).sum
        = (es.map (fun e => e.amount - splitsTotal e)).sum := by
  intro es
  induction es with
  | nil =>
    intro _
    simp
  | cons e rest ih =>
    intro h2
    have he := h2 e (List.mem_cons_self e rest)
    have hr : ∀ e2 ∈ rest, e2.paidBy ∈ ms ∧ ∀ s ∈ e2.splits, s.userId ∈ ms :=
      fun e2 h => h2 e2 (List.mem_cons_of_mem e h)
    have hstep : (ms.map (fun m =>
        ((e :: rest).map (fun e2 => expenseDelta e2 m)).sum)).sum
        = (ms.map (fun m => expenseDelta e m)).sum
            + (ms.map (fun m => (rest.map (fun e2 => expenseDelta e2 m)).sum)).sum := by
      rw [← sum_map_addF]
      congr 1
    rw [hstep, sum_map_expenseDelta ms e hnd he.1 he.2, ih hr, List.map_cons,
      List.sum_cons]

lemma sum_map_settlementDeltas (ms : List String) (hnd : ms.Nodup) :
    ∀ ss : List Settlement,
      (∀ s ∈ ss, s.fromUserId ∈ ms ∧ s.toUserId ∈ ms) →
      (ms.map (fun m => (ss.map (fun s => settlementDelta s m)).sum)).sum = 0 := by
  intro ss
  induction ss with
  | nil =>
    intro _
    simp
  | cons s rest ih =>
    intro h2
    have hs := h2 s (List.mem_cons_self s rest)
    have hr : ∀ s2 ∈ rest, s2.fromUserId ∈ ms ∧ s2.toUserId ∈ ms :=
      fun s2 h => h2 s2 (List.mem_cons_of_mem s h)
    have hstep : (ms.map (fun m =>
        ((s :: rest).map (fun s2 => settlementDelta s2 m)).sum)).sum
        = (ms.map (fun m => settlementDelta s m)).sum
            + (ms.map (fun m => (rest.map (fun s2 => settlementDelta s2 m)).sum)).sum := by
      rw [← sum_map_addF]
      congr 1
    rw [hstep, sum_map_settlementDelta ms s hnd hs.1 hs.2, ih hr]
    ring

/-- Core zero-sum lemma: over a duplicate-free member list containing every
referenced id, balances of the aggregator sum to the total discrepancy
between expense amounts and their split totals. -/
lemma sum_computeBalances (ms : List String) (es : List Expense)
    (ss : List Settlement) (hnd : ms.Nodup)
    (hes : ∀ e ∈ es, e.paidBy ∈ ms ∧ ∀ s ∈ e.splits, s.userId ∈ ms)
    (hss : ∀ s ∈ ss, s.fromUserId ∈ ms ∧ s.toUserId ∈ ms) :
    (ms.map (computeBalances es ss)).sum
      = (es.map (fun e => e.amount - splitsTotal e)).sum := by
  have hpt : (ms.map (computeBalances es ss)).sum
      = (ms.map (fun m => (es.map (fun e => expenseDelta e m)).sum)).sum
          + (ms.map (fun m => (ss.map (fun s => settlementDelta s m)).sum)).sum := by
    rw [← sum_map_addF]
    congr 1
    exact List.map_congr_left (fun m _ => computeBalances_apply es ss m)
  rw [hpt, sum_map_expenseDeltas ms hnd es hes, sum_map_settlementDeltas ms hnd ss hss]
  ring

/-! ## Debt simplifier -/

/-- Error kinds surfaced by the engine (spec §7). -/
inductive EngineError where
  | invariantViolation : String → EngineError
  deriving DecidableEq, Repr

/-- Modelled from the spec: strict preference between creditor entries —
larger credit first, ties broken by smaller member id. -/
def betterCreditor (p q : String × Int) : Prop :=
  q.2 < p.2 ∨ (p.2 = q.2 ∧ p.1 < q.1)

/-- Modelled from the spec: strict preference between debtor entries —
larger absolute debt (more negative balance) first, ties broken by smaller
member id. -/
def betterDebtor (p q : String × Int) : Prop :=
  p.2 < q.2 ∨ (p.2 = q.2 ∧ p.1 < q.1)

instance : DecidableRel betterCreditor := fun p q => by
  unfold betterCreditor
  infer_instance

instance : DecidableRel betterDebtor := fun p q => by
  unfold betterDebtor
  infer_instance

/-- Choose the most preferred entry of a list under a strict preference,
keeping the earlier entry when neither is preferred. -/
def chooseBy (better : String × Int → String × Int → Prop)
    [DecidableRel better] : List (String × Int) → Option (String × Int)
  | [] => none
  | p :: ps =>
    match chooseBy better ps with
    | none => some p
    | some q => if better q p then some q else some p

/-- Creditor with the largest credit (ties by member id). -/
def pickCreditor (l : List (String × Int)) : Option (String × Int) :=
  chooseBy betterCreditor (l.filter (fun p => 0 < p.2))

/-- Debtor with the largest absolute debt (ties by member id). -/
def pickDebtor (l : List (String × Int)) : Option (String × Int) :=
  chooseBy betterDebtor (l.filter (fun p => p.2 < 0))

/-- Modelled from the spec: one transfer — credit `t` to the debtor's
balance and debit `t` from the creditor's. -/
def transferUpd (d c : String × Int) (t : Int) (p : String × Int) :
    String × Int :=
  if p.1 = d.1 then (p.1, p.2 + t)
  else if p.1 = c.1 then (p.1, p.2 - t) else p

/-- Modelled from the spec: one transfer of the greedy loop — move `t` from
the chosen debtor to the chosen creditor and drop parties that reach exactly
zero. -/
def greedyUpdate (l : List (String × Int)) (d c : String × Int) (t : Int) :
    List (String × Int) :=
  (l.map (transferUpd d c t)).filter (fun p => p.2 ≠ 0)

/-- One step of the greedy matching: pick the largest debtor and creditor,
transfer `min (|debt|, credit)`, record the Debt. -/
def greedyStep (l : List (String × Int)) :
    Option (Debt × List (String × Int)) :=
  match pickDebtor l, pickCreditor l with
  | some d, some c =>
    some (⟨d.1, c.1, min (-d.2) c.2⟩, greedyUpdate l d c (min (-d.2) c.2))
  | _, _ => none

/-- Fuel-bounded greedy loop. -/
def simplifyGo : Nat → List (String × Int) → List Debt
  | 0, _ => []
  | fuel + 1, l =>
    match greedyStep l with
    | none => []
    | some (d, l2) => d :: simplifyGo fuel l2

/-- Modelled from the spec: the Debt Simplifier `simplify`, missing from the
source tree (docs list it under `balance.ts`): fail fast with an
`InvariantViolation` when the balances do not sum to zero, otherwise run the
greedy largest-debtor/largest-creditor loop. -/
def simplify (l : List (String × Int)) : Except EngineError (List Debt) :=
  if (l.map Prod.snd).sum = 0 then Except.ok (simplifyGo l.length l)
  else Except.error (EngineError.invariantViolation "nonzero-sum balances entering the simplifier")

/-- A balance map has duplicate-free member keys. -/
def NodupKeys (l : List (String × Int)) : Prop := (l.map Prod.fst).Nodup

instance : DecidablePred NodupKeys := fun l => by
  unfold NodupKeys
  infer_instance

/-- Balance of member `m` in an association list (0 when absent). -/
def lookupBal (l : List (String × Int)) (m : String) : Int :=
  ((l.filter (fun p => p.1 = m)).map Prod.snd).sum

/-- Number of members with a nonzero balance. -/
def nonzeroCount (l : List (String × Int)) : Nat :=
  (l.filter (fun p => p.2 ≠ 0)).length

/-- Net effect of one Debt on member `m` (add to the creditor `toUserId`,
subtract from the debtor `fromUserId`). -/
def debtDelta (d : Debt) (m : String) : Int :=
  (if d.toUserId = m then d.amount else 0) - (if d.fromUserId = m then d.amount else 0)

/-- Net effect of a Debt list on member `m`. -/
def debtsNetEffect (ds : List Debt) (m : String) : Int :=
  (ds.map (fun d => debtDelta d m)).sum

/-! ### Selection lemmas -/

lemma chooseBy_mem (better : String × Int → String × Int → Prop)
    [DecidableRel better] :
    ∀ l q, chooseBy better l = some q → q ∈ l := by
  intro l
  induction l with
  | nil =>
    intro q h
    simp [chooseBy] at h
  | cons p ps ih =>
    intro q h
    unfold chooseBy at h
    rcases hc : chooseBy better ps with _ | q0
    · rw [hc] at h
      replace h : some p = some q := h
      obtain rfl := Option.some.inj h
      exact List.mem_cons_self p ps
    · rw [hc] at h
      replace h : (if better q0 p then some q0 else some p) = some q := h
      by_cases hb : better q0 p
      · rw [if_pos hb] at h
        obtain rfl := Option.some.inj h
        exact List.mem_cons_of_mem p (ih q0 hc)
      · rw [if_neg hb] at h
        obtain rfl := Option.some.inj h
        exact List.mem_cons_self p ps

lemma chooseBy_eq_none (better : String × Int → String × Int → Prop)
    [DecidableRel better] :
    ∀ l, chooseBy better l = none → l = [] := by
  intro l
  cases l with
  | nil =>
    intro _
    rfl
  | cons p ps =>
    intro h
    unfold chooseBy at h
    rcases hc : chooseBy better ps with _ | q0
    · rw [hc] at h
      replace h : some p = none := h
      exact absurd h (Option.some_ne_none p)
    · rw [hc] at h
      replace h : (if better q0 p then some q0 else some p) = none := h
      by_cases hb : better q0 p
      · rw [if_pos hb] at h
        exact absurd h (Option.some_ne_none q0)
      · rw [if_neg hb] at h
        exact absurd h (Option.some_ne_none p)

lemma chooseBy_best (better : String × Int → String × Int → Prop)
    [DecidableRel better]
    (hirr : ∀ a, ¬ better a a)
    (hasymm : ∀ a b, better a b → ¬ better b a)
    (hntrans : ∀ a b c, ¬ better a b → ¬ better b c → ¬ better a c) :
    ∀ l q, chooseBy better l = some q → ∀ p ∈ l, ¬ better p q := by
  intro l
  induction l with
  | nil =>
    intro q h
    simp [chooseBy] at h
  | cons p ps ih =>
    intro q h x hx
    unfold chooseBy at h
    rcases hc : chooseBy better ps with _ | q0
    · rw [hc] at h
      replace h : some p = some q := h
      obtain rfl := Option.some.inj h
      have : ps = [] := chooseBy_eq_none better ps hc
      subst this
      rcases List.mem_cons.mp hx with h1 | h1
      · exact h1 ▸ hirr p
      · exact absurd h1 (List.not_mem_nil x)
    · rw [hc] at h
      replace h : (if better q0 p then some q0 else some p) = some q := h
      by_cases hb : better q0 p
      · rw [if_pos hb] at h
        obtain rfl := Option.some.inj h
        rcases List.mem_cons.mp hx with h1 | h1
        · exact h1 ▸ hasymm q0 p hb
        · exact ih q0 hc x h1
      · rw [if_neg hb] at h
        obtain rfl := Option.some.inj h
        rcases List.mem_cons.mp hx with h1 | h1
        · exact h1 ▸ hirr p
        · exact hntrans x q0 p (ih q0 hc x h1) hb

lemma betterCreditor_irrefl : ∀ a, ¬ betterCreditor a a := by
  intro a h
  unfold betterCreditor at h
  rcases h with h | ⟨_, h⟩
  · exact lt_irrefl _ h
  · exact lt_irrefl _ h

lemma betterCreditor_asymm : ∀ a b, betterCreditor a b → ¬ betterCreditor b a := by
  intro a b h1 h2
  unfold betterCreditor at h1 h2
  rcases h1 with h1 | ⟨h1e, h1s⟩ <;> rcases h2 with h2 | ⟨h2e, h2s⟩
  · exact absurd h1 (not_lt_of_gt h2)
  · exact absurd h1 (h2e ▸ lt_irrefl _)
  · exact absurd h2 (h1e ▸ lt_irrefl _)
  · exact absurd h1s (not_lt_of_gt h2s)

lemma betterCreditor_ntrans :
    ∀ a b c, ¬ betterCreditor a b → ¬ betterCreditor b c → ¬ betterCreditor a c := by
  intro a b c hab hbc hac
  unfold betterCreditor at hab hbc hac
  push_neg at hab hbc
  have hab1 : a.2 ≤ b.2 := hab.1
  have hbc1 : b.2 ≤ c.2 := hbc.1
  rcases hac with h | ⟨he, hs⟩
  · exact absurd h (not_lt_of_ge (le_trans hab1 hbc1))
  · have hbe : b.2 = c.2 := le_antisymm hbc1 (he ▸ hab1)
    have hae : a.2 = b.2 := le_antisymm hab1 (hbe ▸ he.ge)
    have h1 : b.1 ≤ a.1 := hab.2 hae
    have h2 : c.1 ≤ b.1 := hbc.2 hbe
    exact absurd hs (not_lt_of_ge (le_trans h2 h1))

lemma betterDebtor_irrefl : ∀ a, ¬ betterDebtor a a := by
  intro a h
  unfold betterDebtor at h
  rcases h with h | ⟨_, h⟩
  · exact lt_irrefl _ h
  · exact lt_irrefl _ h

lemma betterDebtor_asymm : ∀ a b, betterDebtor a b → ¬ betterDebtor b a := by
  intro a b h1 h2
  unfold betterDebtor at h1 h2
  rcases h1 with h1 | ⟨h1e, h1s⟩ <;> rcases h2 with h2 | ⟨h2e, h2s⟩
  · exact absurd h1 (not_lt_of_gt h2)
  · exact absurd h1 (h2e ▸ lt_irrefl _)
  · exact absurd h2 (h1e ▸ lt_irrefl _)
  · exact absurd h1s (not_lt_of_gt h2s)

lemma betterDebtor_ntrans :
    ∀ a b c, ¬ betterDebtor a b → ¬ betterDebtor b c → ¬ betterDebtor a c := by
  intro a b c hab hbc hac
  unfold betterDebtor at hab hbc hac
  push_neg at hab hbc
  have hab1 : b.2 ≤ a.2 := hab.1
  have hbc1 : c.2 ≤ b.2 := hbc.1
  rcases hac with h | ⟨he, hs⟩
  · exact absurd h (not_lt_of_ge (le_trans hbc1 hab1))
  · have hbe : b.2 = c.2 := le_antisymm (he ▸ hab1) hbc1
    have hae : a.2 = b.2 := le_antisymm (hbe ▸ he.le) hab1
    have h1 : b.1 ≤ a.1 := hab.2 hae
    have h2 : c.1 ≤ b.1 := hbc.2 hbe
    exact absurd hs (not_lt_of_ge (le_trans h2 h1))

lemma pickCreditor_spec (l : List (String × Int)) (c : String × Int)
    (h : pickCreditor l = some c) :
    c ∈ l ∧ 0 < c.2 ∧
      ∀ p ∈ l, 0 < p.2 → p.2 ≤ c.2 ∧ (p.2 = c.2 → c.1 ≤ p.1) := by
  have hmem := chooseBy_mem betterCreditor _ c h
  have hcf := List.mem_filter.mp hmem
  have hbest := chooseBy_best betterCreditor betterCreditor_irrefl
    betterCreditor_asymm betterCreditor_ntrans _ c h
  refine ⟨hcf.1, by simpa using hcf.2, ?_⟩
  intro p hp hpos
  have hpf : p ∈ l.filter (fun p => 0 < p.2) :=
    List.mem_filter.mpr ⟨hp, by simpa using hpos⟩
  have hnb := hbest p hpf
  unfold betterCreditor at hnb
  push_neg at hnb
  exact hnb

lemma pickCreditor_none (l : List (String × Int))
    (h : pickCreditor l = none) : ∀ p ∈ l, p.2 ≤ 0 := by
  intro p hp
  have hnil : l.filter (fun p => 0 < p.2) = [] := by
    cases hf : l.filter (fun p => 0 < p.2) with
    | nil => rfl
    | cons a rest =>
      unfold pickCreditor at h
      rw [hf] at h
      exact absurd (chooseBy_eq_none betterCreditor _ h) (List.cons_ne_nil a rest)
  have := List.filter_eq_nil_iff.mp hnil p hp
  simpa using this

lemma pickDebtor_spec (l : List (String × Int)) (d : String × Int)
    (h : pickDebtor l = some d) :
    d ∈ l ∧ d.2 < 0 ∧
      ∀ p ∈ l, p.2 < 0 → d.2 ≤ p.2 ∧ (p.2 = d.2 → d.1 ≤ p.1) := by
  have hmem := chooseBy_mem betterDebtor _ d h
  have hdf := List.mem_filter.mp hmem
  have hbest := chooseBy_best betterDebtor betterDebtor_irrefl
    betterDebtor_asymm betterDebtor_ntrans _ d h
  refine ⟨hdf.1, by simpa using hdf.2, ?_⟩
  intro p hp hneg
  have hpf : p ∈ l.filter (fun p => p.2 < 0) :=
    List.mem_filter.mpr ⟨hp, by simpa using hneg⟩
  have hnb := hbest p hpf
  unfold betterDebtor at hnb
  push_neg at hnb
  exact ⟨hnb.1, fun he => hnb.2 he⟩

lemma pickDebtor_none (l : List (String × Int))
    (h : pickDebtor l = none) : ∀ p ∈ l, 0 ≤ p.2 := by
  intro p hp
  have hnil : l.filter (fun p => p.2 < 0) = [] := by
    cases hf : l.filter (fun p => p.2 < 0) with
    | nil => rfl
    | cons a rest =>
      unfold pickDebtor at h
      rw [hf] at h
      exact absurd (chooseBy_eq_none betterDebtor _ h) (List.cons_ne_nil a rest)
  have := List.filter_eq_nil_iff.mp hnil p hp
  simpa using this

/-! ### Association-list helpers -/

lemma nodupKeys_eq_of_key {l : List (String × Int)} (hnd : NodupKeys l)
    {p q : String × Int} (hp : p ∈ l) (hq : q ∈ l) (h : p.1 = q.1) : p = q := by
  unfold NodupKeys at hnd
  induction l with
  | nil => exact absurd hp (List.not_mem_nil p)
  | cons a rest ih =>
    rw [List.map_cons] at hnd
    have hnd2 := List.nodup_cons.mp hnd
    rcases List.mem_cons.mp hp with hp1 | hp1 <;>
      rcases List.mem_cons.mp hq with hq1 | hq1
    · exact hp1.trans hq1.symm
    · exfalso
      apply hnd2.1
      have hm : q.1 ∈ rest.map Prod.fst := List.mem_map_of_mem Prod.fst hq1
      have ha : a.1 = q.1 := by rw [← hp1]; exact h
      rw [ha]
      exact hm
    · exfalso
      apply hnd2.1
      have hm : p.1 ∈ rest.map Prod.fst := List.mem_map_of_mem Prod.fst hp1
      have ha : a.1 = p.1 := by rw [← hq1]; exact h.symm
      rw [ha]
      exact hm
    · exact ih hnd2.2 hp1 hq1

lemma filter_key_of_not_mem {l : List (String × Int)} {a : String}
    (h : a ∉ l.map Prod.fst) : l.filter (fun q => q.1 = a) = [] := by
  apply List.filter_eq_nil_iff.mpr
  intro p hp
  simp only [decide_eq_true_eq]
  intro hc
  exact h (hc ▸ List.mem_map_of_mem Prod.fst hp)

lemma filter_key_of_nodup {l : List (String × Int)} (hnd : NodupKeys l)
    {p : String × Int} (hp : p ∈ l) :
    l.filter (fun q => q.1 = p.1) = [p] := by
  unfold NodupKeys at hnd
  induction l with
  | nil => exact absurd hp (List.not_mem_nil p)
  | cons a rest ih =>
    rw [List.map_cons] at hnd
    have hnd2 := List.nodup_cons.mp hnd
    rcases List.mem_cons.mp hp with hp1 | hp1
    · subst hp1
      rw [List.filter_cons_of_pos (by simp)]
      rw [filter_key_of_not_mem hnd2.1]
    · have hane : ¬ (a.1 = p.1) := by
        intro hc
        exact hnd2.1 (hc ▸ List.mem_map_of_mem Prod.fst hp1)
      rw [List.filter_cons_of_neg (by simpa using hane)]
      exact ih hnd2.2 hp1

lemma lookupBal_eq {l : List (String × Int)} (hnd : NodupKeys l)
    {p : String × Int} (hp : p ∈ l) : lookupBal l p.1 = p.2 := by
  unfold lookupBal
  rw [filter_key_of_nodup hnd hp]
  simp

lemma lookupBal_of_not_mem {l : List (String × Int)} {m : String}
    (h : m ∉ l.map Prod.fst) : lookupBal l m = 0 := by
  unfold lookupBal
  rw [filter_key_of_not_mem h]
  rfl

/-! ### Greedy-update lemmas -/

lemma transferUpd_fst (d c : String × Int) (t : Int) (p : String × Int) :
    (transferUpd d c t p).1 = p.1 := by
  unfold transferUpd
  split_ifs <;> rfl

lemma transferUpd_of_other (d c : String × Int) (t : Int) (p : String × Int)
    (h1 : p.1 ≠ d.1) (h2 : p.1 ≠ c.1) : transferUpd d c t p = p := by
  unfold transferUpd
  rw [if_neg h1, if_neg h2]

lemma sum_snd_filter_nz (xs : List (String × Int)) :
    ((xs.filter (fun p => p.2 ≠ 0)).map Prod.snd).sum
      = (xs.map Prod.snd).sum := by
  induction xs with
  | nil => simp
  | cons a rest ih =>
    simp only [List.filter_cons]
    by_cases h : a.2 = 0
    · simpa [h] using ih
    · simpa [h] using ih

lemma lookupBal_filter_nz (xs : List (String × Int)) (m : String) :
    lookupBal (xs.filter (fun p => p.2 ≠ 0)) m = lookupBal xs m := by
  unfold lookupBal
  induction xs with
  | nil => simp
  | cons a rest ih =>
    simp only [List.filter_cons]
    by_cases h1 : a.2 = 0
    all_goals by_cases h2 : a.1 = m
    all_goals simpa [h1, h2] using ih

lemma filter_key_map_transfer (d c : String × Int) (t : Int) (m : String) :
    ∀ xs : List (String × Int),
      (xs.map (transferUpd d c t)).filter (fun p => p.1 = m)
        = (xs.filter (fun p => p.1 = m)).map (transferUpd d c t) := by
  intro xs
  induction xs with
  | nil => simp
  | cons a rest ih =>
    simp only [List.map_cons]
    by_cases h : a.1 = m
    · rw [List.filter_cons_of_pos (by simp [transferUpd_fst, h]),
        List.filter_cons_of_pos (by simpa using h), List.map_cons, ih]
    · rw [List.filter_cons_of_neg (by simp [transferUpd_fst, h]),
        List.filter_cons_of_neg (by simpa using h), ih]

lemma lookupBal_greedyUpdate (l : List (String × Int)) (d c : String × Int)
    (t : Int) (hnd : NodupKeys l) (hd : d ∈ l) (hc : c ∈ l)
    (hne : d.1 ≠ c.1) (m : String) :
    lookupBal (greedyUpdate l d c t) m
      = lookupBal l m + (if d.1 = m then t else 0)
          - (if c.1 = m then t else 0) := by
  unfold greedyUpdate
  rw [lookupBal_filter_nz]
  unfold lookupBal
  rw [filter_key_map_transfer]
  by_cases hm1 : d.1 = m
  · have hfd : l.filter (fun p => p.1 = m) = [d] := by
      rw [← hm1]
      exact filter_key_of_nodup hnd hd
    have hud : transferUpd d c t d = (d.1, d.2 + t) := by
      unfold transferUpd
      rw [if_pos rfl]
    rw [hfd, if_pos hm1, if_neg (fun hc2 => hne (hm1.trans hc2.symm)),
      List.map_cons, List.map_nil, hud]
    simp
  · by_cases hm2 : c.1 = m
    · have hfc : l.filter (fun p => p.1 = m) = [c] := by
        rw [← hm2]
        exact filter_key_of_nodup hnd hc
      have huc : transferUpd d c t c = (c.1, c.2 - t) := by
        unfold transferUpd
        rw [if_neg (fun hc2 => hne hc2.symm), if_pos rfl]
      rw [hfc, if_neg hm1, if_pos hm2, List.map_cons, List.map_nil, huc]
      simp
    · have hmap : (l.filter (fun p => p.1 = m)).map (transferUpd d c t)
          = l.filter (fun p => p.1 = m) := by
        conv_rhs => rw [← List.map_id (l.filter (fun p => p.1 = m))]
        apply List.map_congr_left
        intro p hp
        have hpm : p.1 = m := by simpa using (List.mem_filter.mp hp).2
        simpa using transferUpd_of_other d c t p (fun h => hm1 (h.symm.trans hpm))
          (fun h => hm2 (h.symm.trans hpm))
      rw [hmap, if_neg hm1, if_neg hm2]
      simp

lemma sum_map_indicator2_of_not_mem (l : List String) (a : String) (c : Int)
    (ha : a ∉ l) :
    (l.map (fun m => if m = a then c else 0)).sum = 0 := by
  induction l with
  | nil => simp
  | cons x rest ih =>
    have hax : x ≠ a := fun h => ha (h ▸ List.mem_cons_self x rest)
    have har : a ∉ rest := fun h => ha (List.mem_cons_of_mem x h)
    simp [hax, ih har]

lemma sum_map_indicator2 (l : List String) (a : String) (c : Int)
    (hnd : l.Nodup) (ha : a ∈ l) :
    (l.map (fun m => if m = a then c else 0)).sum = c := by
  induction l with
  | nil => exact absurd ha (List.not_mem_nil a)
  | cons x rest ih =>
    rcases List.mem_cons.mp ha with h | h
    · subst h
      have : a ∉ rest := (List.nodup_cons.mp hnd).1
      simp [sum_map_indicator2_of_not_mem rest a c this]
    · have hax : x ≠ a := by
        intro hc
        exact (List.nodup_cons.mp hnd).1 (hc ▸ h)
      simp [hax, ih (List.nodup_cons.mp hnd).2 h]

lemma sum_snd_greedyUpdate (l : List (String × Int)) (d c : String × Int)
    (t : Int) (hnd : NodupKeys l) (hd : d ∈ l) (hc : c ∈ l)
    (hne : d.1 ≠ c.1) :
    ((greedyUpdate l d c t).map Prod.snd).sum = (l.map Prod.snd).sum := by
  unfold greedyUpdate
  rw [sum_snd_filter_nz, List.map_map]
  have hpt : l.map (Prod.snd ∘ transferUpd d c t)
      = l.map (fun p => p.2 + ((if p.1 = d.1 then t else 0)
          + (if p.1 = c.1 then -t else 0))) := by
    apply List.map_congr_left
    intro p _
    simp only [Function.comp_apply]
    unfold transferUpd
    by_cases h1 : p.1 = d.1
    · rw [if_pos h1, if_pos h1, if_neg (h1 ▸ fun hx => hne (h1 ▸ hx))]
      simp
    · rw [if_neg h1, if_neg h1]
      by_cases h2 : p.1 = c.1
      · rw [if_pos h2, if_pos h2]
        simp
        ring
      · rw [if_neg h2, if_neg h2]
        simp
  rw [hpt, sum_map_addF, sum_map_addF]
  have hkd : (l.map (fun p => if p.1 = d.1 then t else 0)).sum = t := by
    have : l.map (fun p => if p.1 = d.1 then t else 0)
        = (l.map Prod.fst).map (fun k => if k = d.1 then t else 0) := by
      rw [List.map_map]
      rfl
    rw [this]
    exact sum_map_indicator2 (l.map Prod.fst) d.1 t hnd
      (List.mem_map_of_mem Prod.fst hd)
  have hkc : (l.map (fun p => if p.1 = c.1 then -t else 0)).sum = -t := by
    have : l.map (fun p => if p.1 = c.1 then -t else 0)
        = (l.map Prod.fst).map (fun k => if k = c.1 then -t else 0) := by
      rw [List.map_map]
      rfl
    rw [this]
    exact sum_map_indicator2 (l.map Prod.fst) c.1 (-t) hnd
      (List.mem_map_of_mem Prod.fst hc)
  rw [hkd, hkc]
  ring

lemma nodupKeys_greedyUpdate (l : List (String × Int)) (d c : String × Int)
    (t : Int) (hnd : NodupKeys l) : NodupKeys (greedyUpdate l d c t) := by
  unfold NodupKeys at hnd ⊢
  have hkeys : (l.map (transferUpd d c t)).map Prod.fst = l.map Prod.fst := by
    rw [List.map_map]
    exact List.map_congr_left (fun p _ => transferUpd_fst d c t p)
  have hsub2 : List.Sublist ((greedyUpdate l d c t).map Prod.fst)
      ((l.map (transferUpd d c t)).map Prod.fst) := by
    unfold greedyUpdate
    exact List.Sublist.map Prod.fst (List.filter_sublist _)
  rw [hkeys] at hsub2
  exact List.Nodup.sublist hsub2 hnd

lemma length_filter_nz_lt (xs : List (String × Int)) (x : String × Int)
    (hx : x ∈ xs) (hxz : x.2 = 0) :
    (xs.filter (fun p => p.2 ≠ 0)).length < xs.length := by
  induction xs with
  | nil => exact absurd hx (List.not_mem_nil x)
  | cons a rest ih =>
    simp only [List.filter_cons]
    rcases List.mem_cons.mp hx with h | h
    · subst h
      rw [if_neg (by simpa using hxz)]
      exact Nat.lt_succ_of_le (List.length_filter_le _ rest)
    · by_cases ha : a.2 = 0
      · rw [if_neg (by simpa using ha)]
        exact Nat.lt_succ_of_lt (ih h)
      · rw [if_pos (by simpa using ha)]
        simpa using Nat.succ_lt_succ (ih h)

lemma greedyUpdate_length_lt (l : List (String × Int)) (d c : String × Int)
    (hd : d ∈ l) (hc : c ∈ l) (hne : d.1 ≠ c.1) :
    (greedyUpdate l d c (min (-d.2) c.2)).length < l.length := by
  unfold greedyUpdate
  set t := min (-d.2) c.2 with ht
  have hwit : ∃ x ∈ l.map (transferUpd d c t), x.2 = 0 := by
    rcases min_choice (-d.2) c.2 with hmin | hmin
    · refine ⟨transferUpd d c t d, List.mem_map_of_mem _ hd, ?_⟩
      unfold transferUpd
      rw [if_pos rfl]
      simp only
      rw [← ht] at hmin
      rw [hmin]
      ring
    · refine ⟨transferUpd d c t c, List.mem_map_of_mem _ hc, ?_⟩
      unfold transferUpd
      rw [if_neg (fun hx => hne hx.symm), if_pos rfl]
      simp only
      rw [← ht] at hmin
      rw [hmin]
      ring
  rcases hwit with ⟨x, hx, hxz⟩
  have := length_filter_nz_lt (l.map (transferUpd d c t)) x hx hxz
  simpa using this

lemma length_filter_nz_map_le (xs : List (String × Int))
    (f : String × Int → String × Int)
    (hmono : ∀ p ∈ xs, p.2 = 0 → (f p).2 = 0) :
    ((xs.map f).filter (fun p => p.2 ≠ 0)).length
      ≤ (xs.filter (fun p => p.2 ≠ 0)).length := by
  induction xs with
  | nil => simp
  | cons a rest ih =>
    have hm : ∀ p ∈ rest, p.2 = 0 → (f p).2 = 0 :=
      fun p hp => hmono p (List.mem_cons_of_mem a hp)
    simp only [List.map_cons, List.filter_cons]
    by_cases hfa : (f a).2 = 0
    · rw [if_neg (by simpa using hfa)]
      by_cases ha : a.2 = 0
      · rw [if_neg (by simpa using ha)]
        exact ih hm
      · rw [if_pos (by simpa using ha)]
        exact Nat.le_succ_of_le (ih hm)
    · have ha : a.2 ≠ 0 := by
        intro hz
        exact hfa (hmono a (List.mem_cons_self a rest) hz)
      rw [if_pos (by simpa using hfa), if_pos (by simpa using ha)]
      simpa using ih hm

lemma length_filter_nz_map_lt (xs : List (String × Int))
    (f : String × Int → String × Int)
    (hmono : ∀ p ∈ xs, p.2 = 0 → (f p).2 = 0)
    (x : String × Int) (hx : x ∈ xs) (hxnz : x.2 ≠ 0) (hfx : (f x).2 = 0) :
    ((xs.map f).filter (fun p => p.2 ≠ 0)).length
      < (xs.filter (fun p => p.2 ≠ 0)).length := by
  induction xs with
  | nil => exact absurd hx (List.not_mem_nil x)
  | cons a rest ih =>
    have hm : ∀ p ∈ rest, p.2 = 0 → (f p).2 = 0 :=
      fun p hp => hmono p (List.mem_cons_of_mem a hp)
    simp only [List.map_cons, List.filter_cons]
    rcases List.mem_cons.mp hx with h | h
    · subst h
      rw [if_neg (by simpa using hfx), if_pos (by simpa using hxnz)]
      exact Nat.lt_succ_of_le (length_filter_nz_map_le rest f hm)
    · by_cases hfa : (f a).2 = 0
      · rw [if_neg (by simpa using hfa)]
        by_cases ha : a.2 = 0
        · rw [if_neg (by simpa using ha)]
          exact ih hm h
        · rw [if_pos (by simpa using ha)]
          exact Nat.lt_succ_of_lt (ih hm h)
      · have ha : a.2 ≠ 0 := by
          intro hz
          exact hfa (hmono a (List.mem_cons_self a rest) hz)
        rw [if_pos (by simpa using hfa), if_pos (by simpa using ha)]
        simpa using Nat.succ_lt_succ (ih hm h)

/-! ### Greedy-step lemmas -/

lemma all_zero_of_nonneg_sum_zero :
    ∀ xs : List Int, (∀ x ∈ xs, 0 ≤ x) → xs.sum = 0 → ∀ x ∈ xs, x = 0 := by
  intro xs
  induction xs with
  | nil =>
    intro _ _ x hx
    exact absurd hx (List.not_mem_nil x)
  | cons a rest ih =>
    intro hnn hs x hx
    have ha : 0 ≤ a := hnn a (List.mem_cons_self a rest)
    have hrest : ∀ y ∈ rest, (0:Int) ≤ y :=
      fun y hy => hnn y (List.mem_cons_of_mem a hy)
    have hsr : 0 ≤ rest.sum := List.sum_nonneg hrest
    rw [List.sum_cons] at hs
    have ha0 : a = 0 := by omega
    have hr0 : rest.sum = 0 := by omega
    rcases List.mem_cons.mp hx with h | h
    · exact h ▸ ha0
    · exact ih hrest hr0 x h

lemma all_zero_of_nonpos_sum_zero :
    ∀ xs : List Int, (∀ x ∈ xs, x ≤ 0) → xs.sum = 0 → ∀ x ∈ xs, x = 0 := by
  intro xs hnp hs x hx
  have hneg : ∀ y ∈ xs.map (fun z : Int => -z), 0 ≤ y := by
    intro y hy
    rcases List.mem_map.mp hy with ⟨z, hz, rfl⟩
    simpa using hnp z hz
  have hsum : (xs.map (fun z : Int => -z)).sum = 0 := by
    have := sum_map_negF xs id
    simpa [hs] using this
  have := all_zero_of_nonneg_sum_zero _ hneg hsum (-x)
    (List.mem_map_of_mem _ hx)
  omega

lemma lookupBal_all_zero (l : List (String × Int))
    (h : ∀ p ∈ l, p.2 = 0) (m : String) : lookupBal l m = 0 := by
  unfold lookupBal
  apply List.sum_eq_zero
  intro x hx
  rcases List.mem_map.mp hx with ⟨p, hp, rfl⟩
  exact h p (List.mem_filter.mp hp).1

lemma greedyStep_none_all_zero (l : List (String × Int))
    (hsum : (l.map Prod.snd).sum = 0) (h : greedyStep l = none) :
    ∀ p ∈ l, p.2 = 0 := by
  intro p hp
  unfold greedyStep at h
  rcases hd : pickDebtor l with _ | d
  · have hnn : ∀ q ∈ l, (0:Int) ≤ q.2 := pickDebtor_none l hd
    have : ∀ x ∈ l.map Prod.snd, (0:Int) ≤ x := by
      intro x hx
      rcases List.mem_map.mp hx with ⟨q, hq, rfl⟩
      exact hnn q hq
    exact all_zero_of_nonneg_sum_zero _ this hsum p.2
      (List.mem_map_of_mem Prod.snd hp)
  · rcases hcr : pickCreditor l with _ | c
    · have hnp : ∀ q ∈ l, q.2 ≤ (0:Int) := pickCreditor_none l hcr
      have : ∀ x ∈ l.map Prod.snd, x ≤ (0:Int) := by
        intro x hx
        rcases List.mem_map.mp hx with ⟨q, hq, rfl⟩
        exact hnp q hq
      exact all_zero_of_nonpos_sum_zero _ this hsum p.2
        (List.mem_map_of_mem Prod.snd hp)
    · rw [hd, hcr] at h
      exact absurd h (Option.some_ne_none _)

lemma greedyStep_some_spec (l : List (String × Int)) (dbt : Debt)
    (l2 : List (String × Int)) (hnd : NodupKeys l)
    (h : greedyStep l = some (dbt, l2)) :
    ∃ d c : String × Int,
      pickDebtor l = some d ∧ pickCreditor l = some c ∧
      d ∈ l ∧ c ∈ l ∧ d.2 < 0 ∧ 0 < c.2 ∧ d.1 ≠ c.1 ∧
      dbt = ⟨d.1, c.1, min (-d.2) c.2⟩ ∧
      l2 = greedyUpdate l d c (min (-d.2) c.2) := by
  unfold greedyStep at h
  rcases hdk : pickDebtor l with _ | d
  · rw [hdk] at h
    exact absurd h (Option.noConfusion)
  · rcases hck : pickCreditor l with _ | c
    · rw [hdk, hck] at h
      exact absurd h (Option.noConfusion)
    · rw [hdk, hck] at h
      have h2 := Option.some.inj h
      have hds := pickDebtor_spec l d hdk
      have hcs := pickCreditor_spec l c hck
      have hne : d.1 ≠ c.1 := by
        intro hx
        have := nodupKeys_eq_of_key hnd hds.1 hcs.1 hx
        rw [this] at hds
        exact absurd (hds.2.1.trans hcs.2.1) (lt_irrefl c.2)
      exact ⟨d, c, rfl, rfl, hds.1, hcs.1, hds.2.1, hcs.2.1, hne,
        (congrArg Prod.fst h2).symm, (congrArg Prod.snd h2).symm⟩

lemma two_le_length_of_two_mem {l : List (String × Int)}
    {x y : String × Int} (hx : x ∈ l) (hy : y ∈ l) (hxy : x ≠ y) :
    2 ≤ l.length := by
  have hcard : ({x, y} : Finset (String × Int)).card = 2 := Finset.card_pair hxy
  have hsub : ({x, y} : Finset (String × Int)) ⊆ l.toFinset := by
    intro a ha
    rcases Finset.mem_insert.mp ha with h | h
    · exact List.mem_toFinset.mpr (h ▸ hx)
    · exact List.mem_toFinset.mpr ((Finset.mem_singleton.mp h) ▸ hy)
  calc 2 = ({x, y} : Finset (String × Int)).card := hcard.symm
    _ ≤ l.toFinset.card := Finset.card_le_card hsub
    _ ≤ l.length := l.toFinset_card_le

/-- Properties of one successful greedy step: keys stay duplicate-free, the
total is preserved, both the entry count and the nonzero count strictly
drop, at least two parties were nonzero, the recorded amount is positive and
each member's balance moves by exactly the recorded Debt's net effect. -/
lemma greedyStep_props (l : List (String × Int)) (dbt : Debt)
    (l2 : List (String × Int)) (hnd : NodupKeys l)
    (h : greedyStep l = some (dbt, l2)) :
    NodupKeys l2 ∧ (l2.map Prod.snd).sum = (l.map Prod.snd).sum ∧
      l2.length < l.length ∧ nonzeroCount l2 < nonzeroCount l ∧
      2 ≤ nonzeroCount l ∧ 0 < dbt.amount ∧
      ∀ m, lookupBal l2 m = lookupBal l m - debtDelta dbt m := by
  obtain ⟨d, c, hdk, hck, hdl, hcl, hdneg, hcpos, hne, hdbt, hl2⟩ :=
    greedyStep_some_spec l dbt l2 hnd h
  subst hdbt
  subst hl2
  set t := min (-d.2) c.2 with ht
  have htpos : 0 < t := lt_min (by omega) hcpos
  have hmono : ∀ p ∈ l, p.2 = 0 → (transferUpd d c t p).2 = 0 := by
    intro p hp hz
    have h1 : p.1 ≠ d.1 := by
      intro hx
      have := nodupKeys_eq_of_key hnd hp hdl hx
      rw [this] at hz
      omega
    have h2 : p.1 ≠ c.1 := by
      intro hx
      have := nodupKeys_eq_of_key hnd hp hcl hx
      rw [this] at hz
      omega
    rw [transferUpd_of_other d c t p h1 h2]
    exact hz
  have hwit : ∃ x ∈ l, x.2 ≠ 0 ∧ (transferUpd d c t x).2 = 0 := by
    rcases min_choice (-d.2) c.2 with hmin | hmin
    · refine ⟨d, hdl, by omega, ?_⟩
      unfold transferUpd
      rw [if_pos rfl]
      simp only
      rw [← ht] at hmin
      rw [hmin]
      ring
    · refine ⟨c, hcl, by omega, ?_⟩
      unfold transferUpd
      rw [if_neg (fun hx => hne hx.symm), if_pos rfl]
      simp only
      rw [← ht] at hmin
      rw [hmin]
      ring
  have hnzeq : nonzeroCount (greedyUpdate l d c t)
      = (greedyUpdate l d c t).length := by
    unfold nonzeroCount
    congr 1
    apply List.filter_eq_self.mpr
    intro p hp
    unfold greedyUpdate at hp
    exact (List.mem_filter.mp hp).2
  have hnzlt : nonzeroCount (greedyUpdate l d c t) < nonzeroCount l := by
    rw [hnzeq]
    unfold greedyUpdate nonzeroCount
    rcases hwit with ⟨x, hx, hxnz, hxz⟩
    exact length_filter_nz_map_lt l (transferUpd d c t) hmono x hx hxnz hxz
  have hge2 : 2 ≤ nonzeroCount l := by
    unfold nonzeroCount
    have hdnz : d ∈ l.filter (fun p => p.2 ≠ 0) :=
      List.mem_filter.mpr ⟨hdl, by simp; omega⟩
    have hcnz : c ∈ l.filter (fun p => p.2 ≠ 0) :=
      List.mem_filter.mpr ⟨hcl, by simp; omega⟩
    have hdc : d ≠ c := by
      intro hx
      rw [hx] at hdneg
      omega
    exact two_le_length_of_two_mem hdnz hcnz hdc
  refine ⟨nodupKeys_greedyUpdate l d c t hnd,
    sum_snd_greedyUpdate l d c t hnd hdl hcl hne,
    greedyUpdate_length_lt l d c hdl hcl hne,
    hnzlt, hge2, htpos, ?_⟩
  intro m
  rw [lookupBal_greedyUpdate l d c t hnd hdl hcl hne m]
  unfold debtDelta
  simp only
  ring

/-! ### The greedy algorithm as a relation, following the spec's words -/

/-- Second definition, following the spec's words (§4.2 of spec.md), to be
compared with the executable `simplify`: "partition members into creditors
(balance > 0) and debtors (balance < 0).  Repeatedly take the debtor with the
largest absolute debt and the creditor with the largest credit, transfer
`min (|debt|, credit)` between them, record a Debt, decrement both
magnitudes, and remove any party that reaches exactly zero.  Repeat until all
balances are zero", with ties broken by member id. -/
inductive GreedySpec : List (String × Int) → List Debt → Prop where
  | done (l : List (String × Int)) :
      (∀ p ∈ l, p.2 = 0) → GreedySpec l []
  | step (l : List (String × Int)) (d c : String × Int) (ds : List Debt) :
      d ∈ l → d.2 < 0 →
      (∀ p ∈ l, p.2 < 0 → d.2 ≤ p.2 ∧ (p.2 = d.2 → d.1 ≤ p.1)) →
      c ∈ l → 0 < c.2 →
      (∀ p ∈ l, 0 < p.2 → p.2 ≤ c.2 ∧ (p.2 = c.2 → c.1 ≤ p.1)) →
      GreedySpec (greedyUpdate l d c (min (-d.2) c.2)) ds →
      GreedySpec l (⟨d.1, c.1, min (-d.2) c.2⟩ :: ds)

/-! ### Fueled-loop invariants -/

lemma simplifyGo_netEffect :
    ∀ (fuel : Nat) (l : List (String × Int)), NodupKeys l →
      (l.map Prod.snd).sum = 0 → l.length ≤ fuel →
      ∀ m, debtsNetEffect (simplifyGo fuel l) m = lookupBal l m := by
  intro fuel
  induction fuel with
  | zero =>
    intro l hnd hsum hlen m
    have hnil : l = [] := List.eq_nil_of_length_eq_zero (Nat.le_zero.mp hlen)
    subst hnil
    simp [simplifyGo, debtsNetEffect, lookupBal]
  | succ fuel ih =>
    intro l hnd hsum hlen m
    simp only [simplifyGo]
    rcases hstep : greedyStep l with _ | ⟨dbt, l2⟩
    · have hz := greedyStep_none_all_zero l hsum hstep
      rw [lookupBal_all_zero l hz m]
      simp [debtsNetEffect]
    · obtain ⟨hnd2, hsum2, hlen2, _, _, _, hlook⟩ :=
        greedyStep_props l dbt l2 hnd hstep
      have hr := ih l2 hnd2 (hsum2.trans hsum)
        (Nat.le_of_lt_succ (lt_of_lt_of_le hlen2 hlen)) m
      unfold debtsNetEffect at hr ⊢
      rw [List.map_cons, List.sum_cons, hr, hlook m]
      ring

lemma simplifyGo_length_bound :
    ∀ (fuel : Nat) (l : List (String × Int)), NodupKeys l →
      (l.map Prod.snd).sum = 0 → l.length ≤ fuel →
      (simplifyGo fuel l).length ≤ nonzeroCount l - 1 := by
  intro fuel
  induction fuel with
  | zero =>
    intro l _ _ hlen
    have hnil : l = [] := List.eq_nil_of_length_eq_zero (Nat.le_zero.mp hlen)
    subst hnil
    simp [simplifyGo]
  | succ fuel ih =>
    intro l hnd hsum hlen
    simp only [simplifyGo]
    rcases hstep : greedyStep l with _ | ⟨dbt, l2⟩
    · simp
    · obtain ⟨hnd2, hsum2, hlen2, hnz2, hge2, _, _⟩ :=
        greedyStep_props l dbt l2 hnd hstep
      have hr := ih l2 hnd2 (hsum2.trans hsum)
        (Nat.le_of_lt_succ (lt_of_lt_of_le hlen2 hlen))
      simp only [List.length_cons]
      omega

lemma simplifyGo_greedySpec :
    ∀ (fuel : Nat) (l : List (String × Int)), NodupKeys l →
      (l.map Prod.snd).sum = 0 → l.length ≤ fuel →
      GreedySpec l (simplifyGo fuel l) := by
  intro fuel
  induction fuel with
  | zero =>
    intro l _ _ hlen
    have hnil : l = [] := List.eq_nil_of_length_eq_zero (Nat.le_zero.mp hlen)
    subst hnil
    exact GreedySpec.done [] (by simp)
  | succ fuel ih =>
    intro l hnd hsum hlen
    simp only [simplifyGo]
    rcases hstep : greedyStep l with _ | ⟨dbt, l2⟩
    · exact GreedySpec.done l (greedyStep_none_all_zero l hsum hstep)
    · obtain ⟨d, c, hdk, hck, hdl, hcl, hdneg, hcpos, hne, hdbt, hl2⟩ :=
        greedyStep_some_spec l dbt l2 hnd hstep
      obtain ⟨hnd2, hsum2, hlen2, _, _, _, _⟩ :=
        greedyStep_props l dbt l2 hnd hstep
      have hds := pickDebtor_spec l d hdk
      have hcs := pickCreditor_spec l c hck
      have hrec := ih l2 hnd2 (hsum2.trans hsum)
        (Nat.le_of_lt_succ (lt_of_lt_of_le hlen2 hlen))
      rw [hl2] at hrec
      rw [hdbt, hl2]
      exact GreedySpec.step l d c _ hdl hdneg hds.2.2 hcl hcpos hcs.2.2 hrec

/-- When every balance is zero, the greedy loop records no debts. -/
lemma simplifyGo_all_zero (fuel : Nat) (l : List (String × Int))
    (hz : ∀ p ∈ l, p.2 = 0) : simplifyGo fuel l = [] := by
  cases fuel with
  | zero => rfl
  | succ fuel =>
    simp only [simplifyGo]
    have hstep : greedyStep l = none := by
      unfold greedyStep
      have hdk : pickDebtor l = none := by
        unfold pickDebtor
        have : l.filter (fun p => p.2 < 0) = [] := by
          apply List.filter_eq_nil_iff.mpr
          intro p hp
          have := hz p hp
          simp [this]
        rw [this]
        rfl
      rw [hdk]
    rw [hstep]

/-! ## Settlement recorder -/

/-- Validation error naming the violated rule (spec §4.3, §7). -/
inductive ValidationError where
  | nonPositiveAmount : ValidationError
  | selfPayment : ValidationError
  | unknownMember : String → ValidationError
  deriving DecidableEq, Repr

/-- Pot ledger state: current members, expenses and the append-only
settlement log. -/
structure PotState where
  members : List String
  expenses : List Expense
  settlements : List Settlement
  deriving DecidableEq, Repr

/-- Modelled from the spec: the Settlement Recorder `applySettlement`,
missing from the source tree: validate `amount > 0`,
`fromUserId != toUserId` and membership of both parties; on success append
to the append-only settlement log, on failure return a `ValidationError`
naming the violated rule (the state is returned unchanged only through
success, so a failure leaves the caller's state untouched). -/
def applySettlement (s : Settlement) (st : PotState) :
    Except ValidationError PotState :=
  if s.amount ≤ 0 then Except.error ValidationError.nonPositiveAmount
  else if s.fromUserId = s.toUserId then Except.error ValidationError.selfPayment
  else if s.fromUserId ∉ st.members then
    Except.error (ValidationError.unknownMember s.fromUserId)
  else if s.toUserId ∉ st.members then
    Except.error (ValidationError.unknownMember s.toUserId)
  else Except.ok { st with settlements := st.settlements ++ [s] }

/-! ## Auth store (embedded from src/src/store/authStore.ts) -/

/-- User record.  Source: `User` in src/src/navigation/MainTabNavigator.tsx. -/
structure User where
  id : String
  email : String
  name : String
  avatarUrl : Option String
  preferredCurrency : String
  createdAt : String
  updatedAt : String
  deriving DecidableEq, Repr

/-- Login credentials.  Source: `AuthCredentials`. -/
structure AuthCredentials where
  email : String
  password : String
  deriving DecidableEq, Repr

/-- Registration data.  Source: `RegisterData`. -/
structure RegisterData where
  email : String
  password : String
  name : String
  preferredCurrency : Option String
  deriving DecidableEq, Repr

/-- Auth store state fields.  Source: `AuthState` in authStore.ts. -/
structure AuthState where
  user : Option User
  token : Option String
  isAuthenticated : Bool
  isLoading : Bool
  error : Option String
  deriving DecidableEq, Repr

/-- Initial state of the auth store (authStore.ts lines 133-137). -/
def initialAuthState : AuthState :=
  { user := none, token := none, isAuthenticated := false,
    isLoading := false, error := none }

/-- `email.split('@')[0]` of authStore.ts line 163: the part of the email
before the first '@' (the whole string when there is no '@'). -/
def emailNamePart (email : String) : String :=
  email.takeWhile (fun ch => ch ≠ '@')

/-- The `set({ isLoading: true, error: null })` at the start of `login` and
`register` (authStore.ts lines 152, 208). -/
def authPending (st : AuthState) : AuthState :=
  { st with isLoading := true, error := none }

/-- The happy path of the `login` action (authStore.ts lines 150-183):
mock authentication accepts any credentials and builds a mock user whose
name is the email prefix, with `'mock-jwt-token-' + Date.now()` as token.
`nowMs` stands for `Date.now()` and `nowIso` for
`new Date().toISOString()`. -/
def login (_st : AuthState) (credentials : AuthCredentials) (nowMs : Nat)
    (nowIso : String) : AuthState :=
  { user := some
      { id := "mock-user-id-123"
        email := credentials.email
        name := emailNamePart credentials.email
        avatarUrl := none
        preferredCurrency := "USD"
        createdAt := nowIso
        updatedAt := nowIso }
    token := some ("mock-jwt-token-" ++ toString nowMs)
    isAuthenticated := true
    isLoading := false
    error := none }

/-- The catch branch of `login` (authStore.ts lines 184-194): only the
loading flag and the error message change. -/
def loginFailure (st : AuthState) (msg : String) : AuthState :=
  { authPending st with isLoading := false, error := some msg }

/-- The happy path of the `register` action (authStore.ts lines 206-239):
mock registration accepts every input and logs the new user in. -/
def register (_st : AuthState) (data : RegisterData) (nowMs : Nat)
    (nowIso : String) : AuthState :=
  { user := some
      { id := "mock-user-id-" ++ toString nowMs
        email := data.email
        name := data.name
        avatarUrl := none
        preferredCurrency := data.preferredCurrency.getD "USD"
        createdAt := nowIso
        updatedAt := nowIso }
    token := some ("mock-jwt-token-" ++ toString nowMs)
    isAuthenticated := true
    isLoading := false
    error := none }

/-- The catch branch of `register` (authStore.ts lines 240-250). -/
def registerFailure (st : AuthState) (msg : String) : AuthState :=
  { authPending st with isLoading := false, error := some msg }

/-- The `logout` action (authStore.ts lines 261-273). -/
def logout (_st : AuthState) : AuthState :=
  { user := none, token := none, isAuthenticated := false,
    isLoading := false, error := none }

/-- `Partial<User>` updates accepted by `updateUser`. -/
structure UserUpdates where
  id : Option String
  email : Option String
  name : Option String
  avatarUrl : Option String
  preferredCurrency : Option String
  deriving DecidableEq, Repr

/-- `{ ...user, ...updates, updatedAt: ... }` of authStore.ts lines 293-297. -/
def mergeUser (u : User) (upd : UserUpdates) (nowIso : String) : User :=
  { id := upd.id.getD u.id
    email := upd.email.getD u.email
    name := upd.name.getD u.name
    avatarUrl := match upd.avatarUrl with
      | some a => some a
      | none => u.avatarUrl
    preferredCurrency := upd.preferredCurrency.getD u.preferredCurrency
    createdAt := u.createdAt
    updatedAt := nowIso }

/-- The `updateUser` action (authStore.ts lines 284-304): a no-op when no
user is logged in, otherwise merges the updates into the current user. -/
def updateUser (st : AuthState) (upd : UserUpdates) (nowIso : String) :
    AuthState :=
  match st.user with
  | none => st
  | some u => { st with user := some (mergeUser u upd nowIso) }

/-- The `loadAuth` action (authStore.ts lines 313-350): restore the session
when both a stored user and a stored token exist; otherwise (or when loading
throws) only clear the loading flag. -/
def loadAuth (st : AuthState) (storedUser : Option User)
    (storedToken : Option String) (loadFails : Bool) : AuthState :=
  if loadFails then { authPending st with isLoading := false }
  else
    match storedUser, storedToken with
    | some u, some tk =>
      { authPending st with
        user := some u
        token := some tk
        isAuthenticated := true
        isLoading := false }
    | _, _ => { authPending st with isLoading := false }

/-- The `clearError` action (authStore.ts lines 358-360). -/
def clearError (st : AuthState) : AuthState := { st with error := none }

/-- The `setLoading` action (authStore.ts lines 370-372). -/
def setLoading (st : AuthState) (b : Bool) : AuthState :=
  { st with isLoading := b }

/-- The auth-store invariant: an authenticated state has a user and a
token. -/
def AuthInv (st : AuthState) : Prop :=
  st.isAuthenticated = true → st.user ≠ none ∧ st.token ≠ none

/-! ## UI mock data (embedded from src/unnamed/part_004) -/

/-- Status tag of a displayed member balance. -/
inductive BalanceStatus where
  | owes | owed | settled
  deriving DecidableEq, Repr

/-- `MemberBalanceProps` of src/unnamed/part_004 lines 538-542.  Amounts are
rationals carrying the source's decimal dollar literals. -/
structure MemberBalanceProps where
  name : String
  balance : ℚ
  status : BalanceStatus
  deriving DecidableEq, Repr

/-- `BalanceCardProps` of src/unnamed/part_004 lines 48-52. -/
structure BalanceCardProps where
  friendName : String
  amount : ℚ
  type : String
  deriving DecidableEq, Repr

/-- The hard-coded `mockBalances` of `MoveMoneyScreen`
(src/unnamed/part_004 lines 87-90): empty for the demo. -/
def mockBalances : List BalanceCardProps := []

/-- One displayed expense row of `PotDetailScreen`. -/
structure UIExpenseItem where
  description : String
  amount : ℚ
  paidBy : String
  date : String
  category : String
  splits : Nat
  deriving DecidableEq, Repr

/-- The hard-coded trip header of `PotDetailScreen`. -/
structure TripInfo where
  name : String
  location : String
  totalSpent : ℚ
  budget : ℚ
  members : Nat
  deriving DecidableEq, Repr

/-- The data `PotDetailScreen` renders. -/
structure PotDetailData where
  trip : TripInfo
  expenses : List UIExpenseItem
  balances : List MemberBalanceProps
  deriving DecidableEq, Repr

/-- The data of `PotDetailScreen` (src/unnamed/part_004 lines 575-621) as a
function of the `potId` route parameter: the screen receives `potId` from
`route.params` and renders the constants below regardless of it. -/
def PotDetailScreen (_potId : String) : PotDetailData :=
  { trip :=
      { name := "Tokyo Trip", location := "Tokyo, Japan",
        totalSpent := 3247.50, budget := 5000, members := 4 }
    expenses :=
      [ { description := "Dinner at Nobu", amount := 284.00, paidBy := "You",
          date := "2 hours ago", category := "Food", splits := 4 },
        { description := "Taxi to Airport", amount := 45.50, paidBy := "Sarah",
          date := "Yesterday", category := "Transport", splits := 4 },
        { description := "Hotel Reservation", amount := 1200.00, paidBy := "Mike",
          date := "2 days ago", category := "Accommodation", splits := 4 } ]
    balances :=
      [ { name := "Sarah", balance := -67.50, status := BalanceStatus.owes },
        { name := "Mike", balance := 234.25, status := BalanceStatus.owed },
        { name := "Emma", balance := -45.00, status := BalanceStatus.owes },
        { name := "You", balance := 0, status := BalanceStatus.settled } ] }

/-! ## Claim theorems -/

/-- C1 counterexample: not every set of member balances the program displays
sums to zero — the hard-coded `balances` list rendered by `PotDetailScreen`
sums to +121.75 dollars, not 0. -/
theorem potDetail_balances_sum_ne_zero :
    ¬ (((PotDetailScreen "pot-1").balances.map
        MemberBalanceProps.balance).sum = 0) := by
  norm_num [PotDetailScreen]

/-- C1 (amended): balances produced by balance computation are zero-sum —
for any duplicate-free member list covering every id referenced by the
expenses and settlements, when each expense's splits sum to its total, the
computed balances sum to exactly zero. -/
theorem computeBalances_zero_sum (ms : List String) (es : List Expense)
    (ss : List Settlement) (hnd : ms.Nodup)
    (hes : ∀ e ∈ es, e.paidBy ∈ ms ∧ ∀ s ∈ e.splits, s.userId ∈ ms)
    (hss : ∀ s ∈ ss, s.fromUserId ∈ ms ∧ s.toUserId ∈ ms)
    (hbal : ∀ e ∈ es, splitsTotal e = e.amount) :
    (ms.map (computeBalances es ss)).sum = 0 := by
  rw [sum_computeBalances ms es ss hnd hes hss]
  apply List.sum_eq_zero
  intro x hx
  rcases List.mem_map.mp hx with ⟨e, he, rfl⟩
  have := hbal e he
  omega

/-- Witness for C1's theorem: spec scenario 1 plus a settlement, in minor
units — A pays 9000 split 3000/3000/3000, then C pays A 3000. -/
theorem computeBalances_zero_sum_witness :
    (((["A", "B", "C"]).map (computeBalances
        [⟨"A", 9000, [⟨"A", 3000⟩, ⟨"B", 3000⟩, ⟨"C", 3000⟩]⟩]
        [⟨"C", "A", 3000⟩])).sum = 0) :=
  computeBalances_zero_sum ["A", "B", "C"] _ _ (by decide) (by decide)
    (by decide) (by decide)

/-- C2 counterexample: the balances `PotDetailScreen` presents are a fixed
constant independent of the pot and its expense data — two different pots
render the identical non-empty hard-coded list. -/
theorem potDetail_balances_constant :
    (PotDetailScreen "pot-1").balances = (PotDetailScreen "pot-2").balances
      ∧ (PotDetailScreen "pot-1").balances ≠ [] := by
  refine ⟨rfl, ?_⟩
  intro h
  simp [PotDetailScreen] at h

/-- C2 (amended): the engine's balances are recomputed from the current
snapshot — appending an expense or a settlement shifts every member's
computed balance by exactly the appended item's delta, so no stale value
survives a mutation. -/
theorem computeBalances_recompute (es : List Expense) (ss : List Settlement)
    (e : Expense) (s : Settlement) (m : String) :
    computeBalances (es ++ [e]) ss m
        = computeBalances es ss m + expenseDelta e m
      ∧ computeBalances es (ss ++ [s]) m
          = computeBalances es ss m + settlementDelta s m := by
  constructor
  · rw [computeBalances_apply, computeBalances_apply]
    simp
    ring
  · rw [computeBalances_apply, computeBalances_apply]
    simp
    ring

/-- C4: the balance aggregator folds its inputs as specified — each member's
balance equals, over all expenses, `+total` when they are the payer minus
every split amount attributed to them (the payer's own splits subtracted
like anyone else's, with no special case), plus, over all settlements,
`+amount` when they are the paying `fromUserId` and `-amount` when they are
the receiving `toUserId`; a positive result is money owed to the member, a
negative result money they owe. -/
theorem computeBalances_fold_characterization (es : List Expense)
    (ss : List Settlement) (m : String) :
    computeBalances es ss m
      = (es.map (fun e => (if e.paidBy = m then e.amount else 0)
            - ((e.splits.filter (fun s => s.userId = m)).map
                ExpenseSplit.amount).sum)).sum
        + (ss.map (fun s => (if s.fromUserId = m then s.amount else 0)
            - (if s.toUserId = m then s.amount else 0))).sum := by
  rw [computeBalances_apply]
  rfl

lemma simplify_ok_parts (l : List (String × Int)) (ds : List Debt)
    (h : simplify l = Except.ok ds) :
    (l.map Prod.snd).sum = 0 ∧ ds = simplifyGo l.length l := by
  unfold simplify at h
  by_cases hsum : (l.map Prod.snd).sum = 0
  · rw [if_pos hsum] at h
    exact ⟨hsum, (Except.ok.inj h).symm⟩
  · rw [if_neg hsum] at h
    exact absurd h (fun hc => Except.noConfusion hc)

/-- C5: on a successful run over a duplicate-free balance map, `simplify`
returns exactly the Debt list of the spec's greedy algorithm — repeatedly
matching the debtor of largest absolute debt with the creditor of largest
credit (ties broken by smaller member id), transferring
`min (|debt|, credit)` and removing parties that reach zero, until all
balances are zero (`GreedySpec`); and `simplify` is deterministic: equal
inputs give the same ordered Debt list. -/
theorem simplify_greedy_deterministic (l : List (String × Int))
    (ds : List Debt) (hnd : NodupKeys l) (h : simplify l = Except.ok ds) :
    GreedySpec l ds
      ∧ ∀ l2 : List (String × Int), l2 = l → simplify l2 = simplify l := by
  obtain ⟨hsum, hds⟩ := simplify_ok_parts l ds h
  constructor
  · rw [hds]
    exact simplifyGo_greedySpec l.length l hnd hsum (le_refl _)
  · intro l2 h2
    rw [h2]

/-- Witness for C5's theorem at a concrete two-member balance map. -/
theorem simplify_greedy_deterministic_witness :
    GreedySpec [("A", 2), ("B", -2)] [⟨"B", "A", 2⟩] :=
  (simplify_greedy_deterministic [("A", 2), ("B", -2)] [⟨"B", "A", 2⟩]
    (by decide) (by rfl)).1

/-- C6: round-trip of simplification — whenever `simplify` succeeds,
applying the returned Debts to the original balance map (subtract each
Debt's amount from its debtor, add it to its creditor) cancels it exactly:
every member's balance minus the Debts' net effect is zero, i.e. the net
effect reproduces the original balances. -/
theorem simplify_round_trip (l : List (String × Int)) (ds : List Debt)
    (hnd : NodupKeys l) (h : simplify l = Except.ok ds) :
    ∀ m, lookupBal l m - debtsNetEffect ds m = 0 := by
  obtain ⟨hsum, hds⟩ := simplify_ok_parts l ds h
  intro m
  rw [hds, simplifyGo_netEffect l.length l hnd hsum (le_refl _) m]
  ring

/-- Witness for C6's theorem: a three-member map
(A = +6000, B = -2000, C = -4000), checked at member A. -/
theorem simplify_round_trip_witness :
    lookupBal [("A", 6000), ("B", -2000), ("C", -4000)] "A"
        - debtsNetEffect [⟨"C", "A", 4000⟩, ⟨"B", "A", 2000⟩] "A" = 0 :=
  simplify_round_trip [("A", 6000), ("B", -2000), ("C", -4000)]
    [⟨"C", "A", 4000⟩, ⟨"B", "A", 2000⟩] (by decide) (by rfl) "A"

/-- C7: a successful `simplify` returns at most
`numberOfNonZeroBalances - 1` Debts (natural-number subtraction), and an
all-zero balance map returns the empty Debt list, not an error. -/
theorem simplify_debt_count (l : List (String × Int)) (hnd : NodupKeys l) :
    (∀ ds, simplify l = Except.ok ds → ds.length ≤ nonzeroCount l - 1)
      ∧ ((∀ p ∈ l, p.2 = 0) → simplify l = Except.ok []) := by
  constructor
  · intro ds h
    obtain ⟨hsum, hds⟩ := simplify_ok_parts l ds h
    rw [hds]
    exact simplifyGo_length_bound l.length l hnd hsum (le_refl _)
  · intro hz
    have hsum : (l.map Prod.snd).sum = 0 := by
      apply List.sum_eq_zero
      intro x hx
      rcases List.mem_map.mp hx with ⟨p, hp, rfl⟩
      exact hz p hp
    unfold simplify
    rw [if_pos hsum, simplifyGo_all_zero l.length l hz]

/-- Witness for C7's theorem: a two-member map needs one Debt (1 ≤ 2-1),
and an all-zero map yields the empty list. -/
theorem simplify_debt_count_witness :
    ([(⟨"B", "A", 7⟩ : Debt)].length
        ≤ nonzeroCount [("A", 7), ("B", -7)] - 1)
      ∧ simplify [("A", 0), ("B", 0)] = Except.ok [] :=
  ⟨(simplify_debt_count [("A", 7), ("B", -7)] (by decide)).1
      [⟨"B", "A", 7⟩] (by rfl),
    (simplify_debt_count [("A", 0), ("B", 0)] (by decide)).2 (by decide)⟩

/-- C8: `applySettlement` fails with a `ValidationError` naming the violated
rule exactly when the settlement is invalid — non-positive amount,
self-payment, or a party that is not a current pot member — and, failing
functionally, produces no new state, so the caller's state is unchanged;
on a valid settlement it returns the state with the settlement appended to
the append-only log. -/
theorem applySettlement_spec (s : Settlement) (st : PotState) :
    ((∃ err, applySettlement s st = Except.error err)
        ↔ (s.amount ≤ 0 ∨ s.fromUserId = s.toUserId
            ∨ s.fromUserId ∉ st.members ∨ s.toUserId ∉ st.members))
      ∧ (∀ err, applySettlement s st = Except.error err →
          (err = ValidationError.nonPositiveAmount → s.amount ≤ 0)
          ∧ (err = ValidationError.selfPayment → s.fromUserId = s.toUserId)
          ∧ (∀ uid, err = ValidationError.unknownMember uid →
              (uid = s.fromUserId ∨ uid = s.toUserId) ∧ uid ∉ st.members))
      ∧ (0 < s.amount → s.fromUserId ≠ s.toUserId →
          s.fromUserId ∈ st.members → s.toUserId ∈ st.members →
          applySettlement s st
            = Except.ok { st with settlements := st.settlements ++ [s] }) := by
  unfold applySettlement
  by_cases h1 : s.amount ≤ 0
  · rw [if_pos h1]
    refine ⟨⟨fun _ => Or.inl h1, fun _ => ⟨_, rfl⟩⟩, ?_, fun hpos => by omega⟩
    intro err herr
    obtain rfl := (Except.error.inj herr).symm
    exact ⟨fun _ => h1, fun hc => absurd hc (by simp),
      fun uid hc => absurd hc (by simp)⟩
  · rw [if_neg h1]
    by_cases h2 : s.fromUserId = s.toUserId
    · rw [if_pos h2]
      refine ⟨⟨fun _ => Or.inr (Or.inl h2), fun _ => ⟨_, rfl⟩⟩, ?_,
        fun _ hne => absurd h2 hne⟩
      intro err herr
      obtain rfl := (Except.error.inj herr).symm
      exact ⟨fun hc => absurd hc (by simp), fun _ => h2,
        fun uid hc => absurd hc (by simp)⟩
    · rw [if_neg h2]
      by_cases h3 : s.fromUserId ∉ st.members
      · rw [if_pos h3]
        refine ⟨⟨fun _ => Or.inr (Or.inr (Or.inl h3)), fun _ => ⟨_, rfl⟩⟩, ?_,
          fun _ _ hmem _ => absurd hmem h3⟩
        intro err herr
        obtain rfl := (Except.error.inj herr).symm
        refine ⟨fun hc => absurd hc (by simp), fun hc => absurd hc (by simp),
          ?_⟩
        intro uid hc
        have huid : uid = s.fromUserId :=
          (ValidationError.unknownMember.inj hc.symm)
        exact ⟨Or.inl huid, huid ▸ h3⟩
      · rw [if_neg h3]
        by_cases h4 : s.toUserId ∉ st.members
        · rw [if_pos h4]
          refine ⟨⟨fun _ => Or.inr (Or.inr (Or.inr h4)), fun _ => ⟨_, rfl⟩⟩,
            ?_, fun _ _ _ hmem => absurd hmem h4⟩
          intro err herr
          obtain rfl := (Except.error.inj herr).symm
          refine ⟨fun hc => absurd hc (by simp), fun hc => absurd hc (by simp),
            ?_⟩
          intro uid hc
          have huid : uid = s.toUserId :=
            (ValidationError.unknownMember.inj hc.symm)
          exact ⟨Or.inr huid, huid ▸ h4⟩
        · rw [if_neg h4]
          refine ⟨⟨?_, ?_⟩, ?_, fun _ _ _ _ => rfl⟩
          · rintro ⟨err, herr⟩
            exact absurd herr (fun hc => Except.noConfusion hc)
          · intro hbad
            rcases hbad with hb | hb | hb | hb
            · exact absurd hb h1
            · exact absurd hb h2
            · exact absurd hb h3
            · exact absurd hb h4
          · intro err herr
            exact absurd herr (fun hc => Except.noConfusion hc)

/-- Witness for C8's theorem: a valid 500-unit settlement from A to B is
appended to the log. -/
theorem applySettlement_spec_witness :
    applySettlement ⟨"A", "B", 500⟩ ⟨["A", "B"], [], []⟩
      = Except.ok ⟨["A", "B"], [], [⟨"A", "B", 500⟩]⟩ :=
  (applySettlement_spec ⟨"A", "B", 500⟩ ⟨["A", "B"], [], []⟩).2.2
    (by decide) (by decide) (by decide) (by decide)

/-- C9: the mock auth store accepts every credentials input — `login` never
rejects: it always ends authenticated with no error, the token is exactly
`'mock-jwt-token-' + Date.now()` (hence begins with `'mock-jwt-token-'`),
and the user's name is the portion of the supplied email before the first
'@' (`email.split('@')[0]`); `register` likewise succeeds for every
registration input. -/
theorem login_register_always_succeed (st st2 : AuthState)
    (cred : AuthCredentials) (data : RegisterData) (nowMs nowMs2 : Nat)
    (nowIso nowIso2 : String) :
    ((login st cred nowMs nowIso).isAuthenticated = true
      ∧ (login st cred nowMs nowIso).error = none
      ∧ (login st cred nowMs nowIso).token
          = some ("mock-jwt-token-" ++ toString nowMs)
      ∧ ∃ u, (login st cred nowMs nowIso).user = some u
          ∧ u.name = emailNamePart cred.email ∧ u.email = cred.email)
    ∧ ((register st2 data nowMs2 nowIso2).isAuthenticated = true
      ∧ (register st2 data nowMs2 nowIso2).error = none
      ∧ (register st2 data nowMs2 nowIso2).token
          = some ("mock-jwt-token-" ++ toString nowMs2)
      ∧ ∃ u, (register st2 data nowMs2 nowIso2).user = some u
          ∧ u.name = data.name ∧ u.email = data.email) := by
  exact ⟨⟨rfl, rfl, rfl, ⟨_, rfl, rfl, rfl⟩⟩, ⟨rfl, rfl, rfl, ⟨_, rfl, rfl, rfl⟩⟩⟩

/-- C10: the invariant "isAuthenticated implies a non-null user and a
non-null token" holds in the initial state and is preserved by every
auth-store action, the loading and failure paths of `login` and `register`
included. -/
theorem authStore_invariant :
    AuthInv initialAuthState
    ∧ (∀ st cred nowMs nowIso, AuthInv (login st cred nowMs nowIso))
    ∧ (∀ st msg, AuthInv st → AuthInv (loginFailure st msg))
    ∧ (∀ st data nowMs nowIso, AuthInv (register st data nowMs nowIso))
    ∧ (∀ st msg, AuthInv st → AuthInv (registerFailure st msg))
    ∧ (∀ st, AuthInv (logout st))
    ∧ (∀ st upd nowIso, AuthInv st → AuthInv (updateUser st upd nowIso))
    ∧ (∀ st su stok fails, AuthInv st → AuthInv (loadAuth st su stok fails))
    ∧ (∀ st, AuthInv st → AuthInv (clearError st))
    ∧ (∀ st b, AuthInv st → AuthInv (setLoading st b))
    ∧ (∀ st, AuthInv st → AuthInv (authPending st)) := by
  refine ⟨?_, ?_, ?_, ?_, ?_, ?_, ?_, ?_, ?_, ?_, ?_⟩
  · intro h
    exact absurd h (by simp [initialAuthState])
  · intro st cred nowMs nowIso _
    exact ⟨by simp [login], by simp [login]⟩
  · intro st msg h ha
    exact h ha
  · intro st data nowMs nowIso _
    exact ⟨by simp [register], by simp [register]⟩
  · intro st msg h ha
    exact h ha
  · intro st h
    exact absurd h (by simp [logout])
  · intro st upd nowIso h
    unfold updateUser
    cases hu : st.user with
    | none => exact h
    | some u =>
      intro ha
      refine ⟨by simp, ?_⟩
      have := (h ha).2
      simpa using this
  · intro st su stok fails h
    unfold loadAuth
    by_cases hf : fails
    · rw [if_pos hf]
      intro ha
      exact h ha
    · rw [if_neg hf]
      cases su with
      | none =>
        intro ha
        exact h ha
      | some u =>
        cases stok with
        | none =>
          intro ha
          exact h ha
        | some tk =>
          intro _
          exact ⟨by simp [authPending], by simp [authPending]⟩
  · intro st h ha
    exact h ha
  · intro st b h ha
    exact h ha
  · intro st h ha
    exact h ha

/-- Witness for C10's theorem: the invariant holds after a login-failure
transition from the initial state. -/
theorem authStore_invariant_witness :
    AuthInv (loginFailure initialAuthState "Login failed") :=
  authStore_invariant.2.2.1 initialAuthState "Login failed"
    authStore_invariant.1

end Tailwind
